import Mathlib

/-!
Shallow embedding of `src/ex06.rs` (Advent of Code 2015, day 6): the
instruction parser (`EX06_REGEX`, `ParserIterator`) and the packed 128-bit-word
light grid (`Grid::new`, `Grid::update`, `Grid::count`), together with the
driver `a`.

Machine integers are modelled as `Nat` with explicit bounds: `u128` words are
naturals below `2 ^ 128`, `usize` values are naturals at most `2 ^ 64 - 1`.
Rust panics (failed `unwrap`, out-of-bounds indexing, overflow-checked `+`)
are modelled as `Option`/`Except` failures.
-/

namespace Ex06

/-- `usize::MAX` on the 64-bit target: `2 ^ 64 - 1`. -/
def usizeMax : Nat := 2 ^ 64 - 1

/-- The modulus of the `u128` word type used by the grid storage. -/
def wordMod : Nat := 2 ^ 128

/-! ## Instruction parser

The source regex is
`^(turn on|turn off|toggle) (\d+),(\d+) through (\d+),(\d+)$`.
It is anchored and deterministic (each `\d+` group is followed by a
non-digit), so it is embedded as a recursive-descent matcher over the
line's characters: literal match of the operation alternatives in the
regex's left-to-right order, then the literal separators, with each `\d+`
taking the maximal run of digits. -/

/-- Match a literal character sequence at the head of the input, returning
the rest of the input on success. -/
def matchLit : List Char → List Char → Option (List Char)
  | [], cs => some cs
  | p :: ps, c :: cs => if c = p then matchLit ps cs else none
  | _ :: _, [] => none

/-- Match the regex group `(turn on|turn off|toggle)`, returning the matched
operation string and the rest of the input.  The alternatives are tried in
the regex's order. -/
def matchOp (cs : List Char) : Option (String × List Char) :=
  match matchLit ("turn on".toList) cs with
  | some rest => some ("turn on", rest)
  | none =>
    match matchLit ("turn off".toList) cs with
    | some rest => some ("turn off", rest)
    | none =>
      match matchLit ("toggle".toList) cs with
      | some rest => some ("toggle", rest)
      | none => none

/-- Match `\d+`: a non-empty maximal run of decimal digits. -/
def matchNum (cs : List Char) : Option (List Char × List Char) :=
  match cs.span Char.isDigit with
  | (ds, rest) => if ds = [] then none else some (ds, rest)

/-- The full anchored regex match: on success, the operation string and the
four digit groups.  `none` models `EX06_REGEX.captures(line)` returning
`None` (so that `ParserIterator::next` panics on `unwrap`). -/
def matchLine (cs : List Char) : Option (String × List Char × List Char × List Char × List Char) :=
  (matchOp cs).bind fun p =>
  (matchLit [' '] p.2).bind fun r1 =>
  (matchNum r1).bind fun q1 =>
  (matchLit [','] q1.2).bind fun r3 =>
  (matchNum r3).bind fun q2 =>
  (matchLit (" through ".toList) q2.2).bind fun r5 =>
  (matchNum r5).bind fun q3 =>
  (matchLit [','] q3.2).bind fun r7 =>
  (matchNum r7).bind fun q4 =>
  if q4.2 = [] then some (p.1, q1.1, q2.1, q3.1, q4.1) else none

/-- Value of a digit group in base 10, as `str::parse` computes it. -/
def digitsToNat (ds : List Char) : Nat :=
  ds.foldl (fun a c => a * 10 + (c.toNat - '0'.toNat)) 0

/-- A parsed item of `ParserIterator`: the operation string and the four
coordinates (start inclusive, end exclusive). -/
abbrev Item := String × Nat × Nat × Nat × Nat

/-- Failure modes of `ParserIterator::next`:
`malformed` models the panic on a line the regex rejects or on
`str::parse::<usize>` failing (including numeric overflow of a digit
group), which the specification calls `MalformedInstruction`;
`addOverflow` models the distinct overflow-checked panic of the `+ 1`
applied to an end coordinate equal to `usize::MAX`. -/
inductive ParseError where
  | malformed
  | addOverflow
deriving DecidableEq

/-- Decidable equality for `Except`, so that parser results can be checked
on concrete inputs. -/
instance {ε α : Type} [DecidableEq ε] [DecidableEq α] : DecidableEq (Except ε α) := fun a b =>
  match a, b with
  | .ok x, .ok y =>
    if h : x = y then isTrue (h ▸ rfl) else isFalse (fun c => h (Except.ok.inj c))
  | .error e, .error f =>
    if h : e = f then isTrue (h ▸ rfl) else isFalse (fun c => h (Except.error.inj c))
  | .ok _, .error _ => isFalse Except.noConfusion
  | .error _, .ok _ => isFalse Except.noConfusion

/-- The numeric stage of `ParserIterator::next`, in the source's evaluation
order: `parts[1]`, `parts[2]`, `parts[3]` are parsed, then `parts[3] + 1`
is computed, then `parts[4]` is parsed, then `parts[4] + 1`.  A digit group
above `usize::MAX` fails `str::parse` (malformed); an end coordinate equal
to `usize::MAX` makes the subsequent `+ 1` overflow. -/
def parseVals (op : String) (v1 v2 v3 v4 : Nat) : Except ParseError Item :=
  if v1 > usizeMax then .error .malformed
  else if v2 > usizeMax then .error .malformed
  else if v3 > usizeMax then .error .malformed
  else if v3 = usizeMax then .error .addOverflow
  else if v4 > usizeMax then .error .malformed
  else if v4 = usizeMax then .error .addOverflow
  else .ok (op, v1, v2, v3 + 1, v4 + 1)

/-- One step of `ParserIterator::next` on a single line. -/
def parseLine (cs : List Char) : Except ParseError Item :=
  match matchLine cs with
  | none => .error .malformed
  | some (op, d1, d2, d3, d4) =>
    parseVals op (digitsToNat d1) (digitsToNat d2) (digitsToNat d3) (digitsToNat d4)

/-! ## The `str::lines` iterator

`str::lines` splits the input inclusively at `'\n'`, then removes the
terminating `'\n'` of each segment together with a `'\r'` directly before
it.  A final segment not ending in `'\n'` is kept as is (so a trailing
newline produces no final empty line, while interior empty lines are
produced). -/

/-- `str::split_inclusive('\n')`: split after each newline, each segment
keeping its terminator; the empty input yields no segments. -/
def splitIncl : List Char → List (List Char)
  | [] => []
  | c :: rest =>
    if c = '\n' then ['\n'] :: splitIncl rest
    else
      match splitIncl rest with
      | [] => [[c]]
      | l :: ls => (c :: l) :: ls

/-- Remove a terminating `'\n'`, together with a `'\r'` directly before it. -/
def rstripNlCr (l : List Char) : List Char :=
  match l.reverse with
  | '\n' :: '\r' :: rest => rest.reverse
  | '\n' :: rest => rest.reverse
  | _ => l

/-- The lines of the input as `str::lines` yields them. -/
def linesOf (cs : List Char) : List (List Char) :=
  (splitIncl cs).map rstripNlCr

/-- Driving `ParserIterator` to completion: one `next` per line, stopping at
the first failure (a panic terminates the whole run). -/
def parseLines : List (List Char) → Except ParseError (List Item)
  | [] => .ok []
  | l :: ls =>
    match parseLine l with
    | .error e => .error e
    | .ok it =>
      match parseLines ls with
      | .error e => .error e
      | .ok its => .ok (it :: its)

/-! ## The packed light grid -/

/-- The operation enum `Op`. -/
inductive Op where
  | on
  | off
  | toggle
deriving DecidableEq

/-- The grid: a flat row-major vector of 128-bit words (`width` words per
row, `height` rows), each word a natural below `2 ^ 128` whose bit `b` of
word column `w` is the light at x-position `w * 128 + b`. -/
structure Grid where
  grid : List Nat
  width : Nat
  height : Nat
deriving DecidableEq

/-- `Grid::new`: `none` models the `assert!` panic on a zero dimension
(the specification's `InvalidDimensions`). -/
def Grid.new (width height : Nat) : Option Grid :=
  if width > 0 ∧ height > 0 then
    some { grid := List.replicate (((width - 1) / 128 + 1) * height) 0
           width := (width - 1) / 128 + 1
           height := height }
  else none

/-- The mask computed by `Grid::update` for word column `xIndex`:
`start_bit` is `0` when the word starts at or after `x1`, else
`x1 - xIndex * 128`; `end_bit` is `x2 - xIndex * 128`, with the shift
`1 << end_bit` replaced by `0` when `end_bit` reaches the word width; the
mask is the wrapping `u128` subtraction of the two shifted values.
(The `Nat` subtractions cannot underflow for the word columns the loop
visits, since there `xIndex * 128 ≤ x2`, matching the `usize` arithmetic.) -/
def updateMask (x1 x2 xIndex : Nat) : Nat :=
  let startBit := if x1 < xIndex * 128 then 0 else x1 - xIndex * 128
  let endBit := x2 - xIndex * 128
  let startMask := 1 <<< startBit
  let endMask := if endBit < 128 then 1 <<< endBit else 0
  (endMask + wordMod - startMask) % wordMod

/-- One `match op` body of `Grid::update`: `|=`, `&= !mask`, `^=` on a
`u128` word (`!mask` is the complement within `2 ^ 128`). -/
def applyOp (op : Op) (mask w : Nat) : Nat :=
  match op with
  | .on => w ||| mask
  | .off => w &&& ((wordMod - 1) ^^^ mask)
  | .toggle => w ^^^ mask

/-- `grid[i] = f(grid[i])` on the flat word vector: `none` models the
index-out-of-bounds panic. -/
def modifyAt (f : Nat → Nat) : List Nat → Nat → Option (List Nat)
  | [], _ => none
  | w :: l, 0 => some (f w :: l)
  | w :: l, n + 1 =>
    match modifyAt f l n with
    | none => none
    | some l2 => some (w :: l2)

/-- Perform a sequence of masked writes `(flat index, mask)` in order. -/
def applyWrites (op : Op) : List (Nat × Nat) → List Nat → Option (List Nat)
  | [], l => some l
  | (i, m) :: ps, l =>
    match modifyAt (applyOp op m) l i with
    | none => none
    | some l2 => applyWrites op ps l2

/-- The word columns the outer loop of `Grid::update` visits:
`start_x_index ..= end_x_index` with `start_x_index = max(0, x1 / 128)` and
`end_x_index = min(width, x2 / 128)` — an *inclusive* range, empty when the
start exceeds the end. -/
def colRange (x1 x2 width : Nat) : List Nat :=
  List.range' (max 0 (x1 / 128)) (min width (x2 / 128) + 1 - max 0 (x1 / 128))

/-- The flat row offsets the inner loop of `Grid::update` visits:
`(start_y_index..end_y_index).step_by(width)` with
`start_y_index = max(0, y1) * width` and
`end_y_index = min(height, y2) * width`. -/
def rowRange (y1 y2 width height : Nat) : List Nat :=
  List.range' (max 0 y1 * width)
    ((min height y2 * width - max 0 y1 * width + (width - 1)) / width) width

/-- The ordered sequence of writes `Grid::update` performs: for each word
column `x_index` (outer loop, with its mask computed once), for each flat
row offset `y_index` (inner loop), a write at flat index
`y_index + x_index` with that column's mask. -/
def writeList (x1 y1 x2 y2 width height : Nat) : List (Nat × Nat) :=
  (colRange x1 x2 width).flatMap fun x =>
    (rowRange y1 y2 width height).map fun y => (y + x, updateMask x1 x2 x)

/-- The body of `Grid::update` past the empty-rectangle guard, acting on
the flat word vector.  `none` models a panic: either an out-of-bounds
write, or `step_by(0)` when `width = 0` and the column range is non-empty
(the inner iterator is constructed only when the outer loop runs). -/
def updateCore (op : Op) (x1 y1 x2 y2 width height : Nat) (l : List Nat) :
    Option (List Nat) :=
  if colRange x1 x2 width = [] then some l
  else if width = 0 then none
  else applyWrites op (writeList x1 y1 x2 y2 width height) l

/-- `Grid::update`. -/
def Grid.update (g : Grid) (op : Op) (x1 y1 x2 y2 : Nat) : Option Grid :=
  if x1 ≥ x2 ∨ y1 ≥ y2 then some g
  else (updateCore op x1 y1 x2 y2 g.width g.height g.grid).map fun l => { g with grid := l }

/-- Population count of a word, by 128 divide-and-test steps (enough fuel
for any `u128` value). -/
def popCountAux : Nat → Nat → Nat
  | 0, _ => 0
  | fuel + 1, n => n % 2 + popCountAux fuel (n / 2)

/-- `u128::count_ones`. -/
def popCount (n : Nat) : Nat := popCountAux 128 n

/-- `Grid::count`: the sum of the population counts of all words. -/
def Grid.count (g : Grid) : Nat := (g.grid.map popCount).sum

/-! ## The driver `a` -/

/-- The dispatch of the driver's `match line`: the `unreachable!()` arm is
modelled as a panic (`none`), as is a failing update. -/
def runInstr (g : Grid) (it : Item) : Option Grid :=
  match it with
  | ("turn on", x1, y1, x2, y2) => g.update .on x1 y1 x2 y2
  | ("turn off", x1, y1, x2, y2) => g.update .off x1 y1 x2 y2
  | ("toggle", x1, y1, x2, y2) => g.update .toggle x1 y1 x2 y2
  | _ => none

/-- The driver `a`: a fresh `1000 × 1000` grid, one update per parsed line,
then the lit count.  `none` models any panic along the way. -/
def a (input : List Char) : Option Nat :=
  match Grid.new 1000 1000 with
  | none => none
  | some g =>
    match parseLines (linesOf input) with
    | .error _ => none
    | .ok items =>
      match items.foldlM runInstr g with
      | none => none
      | some g2 => some g2.count

/-- The payload of a successful parse (dummy value on the error side; used
only to state which instruction each line contributes). -/
def okVal : Except ParseError Item → Item
  | .ok it => it
  | .error _ => ("", 0, 0, 0, 0)

/-- Whether a parse succeeded. -/
def isOkB : Except ParseError Item → Bool
  | .ok _ => true
  | .error _ => false

/-- A flat index `j` is written by an update exactly when some visited word
column `x` and flat row offset `y` satisfy `j = y + x`. -/
def hits (x1 y1 x2 y2 width height j : Nat) : Prop :=
  ∃ x y, x ∈ colRange x1 x2 width ∧ y ∈ rowRange y1 y2 width height ∧ j = y + x

/-- The input of the end-to-end claim. -/
def inputC1 : List Char :=
  ("turn on 0,0 through 999,999\ntoggle 0,0 through 999,0\nturn off 499,499 through 500,500".toList)

/-- A fully lit word. -/
def wFull : Nat := 2 ^ 128 - 1

/-- The last word of a fully lit 1000-cell row: bits `0 ≤ b < 104`. -/
def wPart : Nat := 2 ^ 104 - 1

/-- A fully lit word after `turn off 499,499 through 500,500` clears its
bits 115 and 116 (logical x-positions 499 and 500 of word column 3). -/
def wCleared : Nat := wFull &&& ((2 ^ 128 - 1) ^^^ updateMask 499 501 3)

/-- A fully lit 1000-cell row (8 words). -/
def rowFull : List Nat := [wFull, wFull, wFull, wFull, wFull, wFull, wFull, wPart]

/-- A fully lit row with cells 499 and 500 turned off. -/
def rowCleared : List Nat := [wFull, wFull, wFull, wCleared, wFull, wFull, wFull, wPart]

/-- The grid storage after `turn on 0,0 through 999,999`. -/
def gridA : List Nat := (List.replicate 1000 rowFull).flatten

/-- The storage after the subsequent `toggle 0,0 through 999,0`. -/
def gridB : List Nat := List.replicate 8 0 ++ (List.replicate 999 rowFull).flatten

/-- The storage after the final `turn off 499,499 through 500,500`
(rows 499 and 500 start at flat indices 3992 and 4000). -/
def gridC : List Nat :=
  List.replicate 8 0 ++ (List.replicate 498 rowFull).flatten ++
    rowCleared ++ rowCleared ++ (List.replicate 499 rowFull).flatten

end Ex06

namespace Ex06

/-! ## Helper lemmas: the numeric stage of the parser -/

theorem parseVals_ok {op : String} {v1 v2 v3 v4 : Nat} (h1 : v1 ≤ usizeMax)
    (h2 : v2 ≤ usizeMax) (h3 : v3 < usizeMax) (h4 : v4 < usizeMax) :
    parseVals op v1 v2 v3 v4 = .ok (op, v1, v2, v3 + 1, v4 + 1) := by
  unfold parseVals
  split_ifs <;> first | rfl | (exfalso; omega)

theorem parseVals_malformed {op : String} {v1 v2 v3 v4 : Nat}
    (h : v1 > usizeMax ∨ v2 > usizeMax ∨ v3 > usizeMax ∨ (v3 < usizeMax ∧ v4 > usizeMax)) :
    parseVals op v1 v2 v3 v4 = .error .malformed := by
  unfold parseVals
  split_ifs <;> first | rfl | (exfalso; omega)

theorem parseVals_overflow {op : String} {v1 v2 v3 v4 : Nat} (h1 : v1 ≤ usizeMax)
    (h2 : v2 ≤ usizeMax) (h3 : v3 ≤ usizeMax) (h4 : v4 ≤ usizeMax)
    (h : v3 = usizeMax ∨ v4 = usizeMax) :
    parseVals op v1 v2 v3 v4 = .error .addOverflow := by
  unfold parseVals
  split_ifs <;> first | rfl | (exfalso; omega)

end Ex06

namespace Ex06

/-! ## Claim C4 (corrected), C6 (corrected), C10 -/

/-- C4, counterexample: the line
`turn on 0,0 through 18446744073709551616,1` matches the grammar
(`\d+` accepts any digit run), yet the parser does not return its
coordinates: the x end coordinate `2 ^ 64` overflows `usize`, so
`str::parse` fails and the whole line is rejected. -/
theorem c4_counterexample :
    matchLine ("turn on 0,0 through 18446744073709551616,1".toList) =
      some ("turn on", "0".toList, "0".toList, "18446744073709551616".toList, "1".toList) ∧
    digitsToNat ("18446744073709551616".toList) = 2 ^ 64 ∧
    parseLine ("turn on 0,0 through 18446744073709551616,1".toList) = .error .malformed := by
  refine ⟨by decide, by decide, ?_⟩
  decide

/-- C4, amended: for every grammar-matching line whose coordinate values fit
in `usize` and whose end coordinates are below `usize::MAX`, the parser
returns the operation, the start coordinates unchanged, and the end
coordinates incremented by 1. -/
theorem c4_amended (cs : List Char) (op : String) (d1 d2 d3 d4 : List Char)
    (hm : matchLine cs = some (op, d1, d2, d3, d4))
    (h1 : digitsToNat d1 ≤ usizeMax) (h2 : digitsToNat d2 ≤ usizeMax)
    (h3 : digitsToNat d3 < usizeMax) (h4 : digitsToNat d4 < usizeMax) :
    parseLine cs =
      .ok (op, digitsToNat d1, digitsToNat d2, digitsToNat d3 + 1, digitsToNat d4 + 1) := by
  unfold parseLine
  rw [hm]
  exact parseVals_ok h1 h2 h3 h4

/-- C4, witness: `turn on 0,0 through 1,1` parses to
`(turn on, 0, 0, 2, 2)`. -/
theorem c4_witness :
    parseLine ("turn on 0,0 through 1,1".toList) = .ok ("turn on", 0, 0, 2, 2) := by
  have h := c4_amended ("turn on 0,0 through 1,1".toList) "turn on"
    "0".toList "0".toList "1".toList "1".toList (by decide) (by decide) (by decide)
    (by decide) (by decide)
  simpa [digitsToNat] using h

/-- C6, counterexample: the line
`turn on 0,0 through 18446744073709551615,18446744073709551616` has a
coordinate overflowing `usize` (its y end coordinate is `2 ^ 64`), so the
claim puts it in the `MalformedInstruction` class; but the code increments
the x end coordinate `usize::MAX` before parsing the y end coordinate, so
the overflow-checked `+ 1` fails first and the failure is the
add-overflow panic, not the `MalformedInstruction` one. -/
theorem c6_counterexample :
    matchLine ("turn on 0,0 through 18446744073709551615,18446744073709551616".toList) =
      some ("turn on", "0".toList, "0".toList,
        "18446744073709551615".toList, "18446744073709551616".toList) ∧
    digitsToNat ("18446744073709551616".toList) > usizeMax ∧
    parseLine ("turn on 0,0 through 18446744073709551615,18446744073709551616".toList) =
      .error .addOverflow := by
  refine ⟨by decide, by decide, ?_⟩
  decide

/-- C6, amended: a line the regex rejects fails as `MalformedInstruction`,
and so does a grammar-matching line with a coordinate overflowing `usize` —
unless the x end coordinate equals exactly `usize::MAX` and the overflow is
in the y end coordinate, in which case the increment overflow preempts it. -/
theorem c6_amended (cs : List Char) :
    (matchLine cs = none → parseLine cs = .error .malformed) ∧
    (∀ op d1 d2 d3 d4, matchLine cs = some (op, d1, d2, d3, d4) →
      (digitsToNat d1 > usizeMax ∨ digitsToNat d2 > usizeMax ∨ digitsToNat d3 > usizeMax ∨
        (digitsToNat d3 < usizeMax ∧ digitsToNat d4 > usizeMax)) →
      parseLine cs = .error .malformed) := by
  constructor
  · intro h
    unfold parseLine
    rw [h]
  · intro op d1 d2 d3 d4 hm h
    unfold parseLine
    rw [hm]
    exact parseVals_malformed h

/-- C6, witness: a line missing the `through` keyword is rejected as
malformed. -/
theorem c6_witness :
    parseLine ("turn on 0,0 though 1,1".toList) = .error .malformed :=
  (c6_amended ("turn on 0,0 though 1,1".toList)).1 (by decide)

/-- C10: a grammar-matching line whose end coordinate values are strictly
below `usize::MAX` parses successfully with both end coordinates
incremented; a grammar-matching line whose end coordinate value equals
`usize::MAX` is not rejected as malformed — the `+ 1` increment itself
overflows (the overflow-checked add panic of the debug profile), a failure
distinct from `MalformedInstruction`. -/
theorem c10_increments (cs : List Char) (op : String) (d1 d2 d3 d4 : List Char)
    (hm : matchLine cs = some (op, d1, d2, d3, d4))
    (h1 : digitsToNat d1 ≤ usizeMax) (h2 : digitsToNat d2 ≤ usizeMax)
    (h3 : digitsToNat d3 ≤ usizeMax) (h4 : digitsToNat d4 ≤ usizeMax) :
    (digitsToNat d3 < usizeMax → digitsToNat d4 < usizeMax →
      parseLine cs =
        .ok (op, digitsToNat d1, digitsToNat d2, digitsToNat d3 + 1, digitsToNat d4 + 1)) ∧
    ((digitsToNat d3 = usizeMax ∨ digitsToNat d4 = usizeMax) →
      parseLine cs = .error .addOverflow ∧ parseLine cs ≠ .error .malformed) := by
  constructor
  · intro g3 g4
    unfold parseLine
    rw [hm]
    exact parseVals_ok h1 h2 g3 g4
  · intro hmax
    have : parseLine cs = .error .addOverflow := by
      unfold parseLine
      rw [hm]
      exact parseVals_overflow h1 h2 h3 h4 hmax
    exact ⟨this, by rw [this]; intro h; exact ParseError.noConfusion (Except.error.inj h)⟩

/-- C10, witness: a line whose x end coordinate is textually
`18446744073709551615` (that is, `usize::MAX`) fails with the increment
overflow, not as malformed. -/
theorem c10_witness :
    parseLine ("turn on 0,0 through 18446744073709551615,0".toList) = .error .addOverflow ∧
    parseLine ("turn on 0,0 through 18446744073709551615,0".toList) ≠ .error .malformed :=
  (c10_increments ("turn on 0,0 through 18446744073709551615,0".toList) "turn on"
    "0".toList "0".toList "18446744073709551615".toList "0".toList
    (by decide) (by decide) (by decide) (by decide) (by decide)).2 (by decide)

end Ex06

namespace Ex06

/-! ## Claims C8 (grid construction), C9 (empty rectangle), C2 (clipping) -/

theorem popCountAux_zero (fuel : Nat) : popCountAux fuel 0 = 0 := by
  induction fuel with
  | zero => rfl
  | succ n ih => simpa [popCountAux] using ih

/-- C8: `Grid::new` fails exactly on a zero dimension, and otherwise yields
a grid whose every bit is off, so its count is 0. -/
theorem c8_new_dimensions (w h : Nat) :
    (Grid.new w h = none ↔ w = 0 ∨ h = 0) ∧
    (∀ g : Grid, Grid.new w h = some g → g.count = 0) := by
  constructor
  · unfold Grid.new
    split_ifs with hc
    · simp only [false_iff]
      omega
    · simp only [true_iff]
      omega
  · intro g hg
    unfold Grid.new at hg
    split_ifs at hg
    cases hg
    unfold Grid.count
    simp [popCount, popCountAux_zero]

/-- C8, witness: `Grid::new(0, 5)` fails, and `Grid::new(1, 1)` has count 0. -/
theorem c8_witness :
    Grid.new 0 5 = none ∧ Grid.count ⟨[0], 1, 1⟩ = 0 :=
  ⟨(c8_new_dimensions 0 5).1.mpr (Or.inl rfl),
   (c8_new_dimensions 1 1).2 ⟨[0], 1, 1⟩ rfl⟩

/-- C9: an update with an empty rectangle (`x1 ≥ x2` or `y1 ≥ y2`) is a
no-op: it succeeds and returns the grid unchanged. -/
theorem c9_empty_rectangle (g : Grid) (op : Op) (x1 y1 x2 y2 : Nat)
    (h : x1 ≥ x2 ∨ y1 ≥ y2) :
    g.update op x1 y1 x2 y2 = some g := by
  unfold Grid.update
  rw [if_pos h]

/-- C9, witness: a degenerate `turn on` on a 1×1 grid is a no-op. -/
theorem c9_witness : Grid.update ⟨[0], 1, 1⟩ .on 3 0 3 1 = some ⟨[0], 1, 1⟩ :=
  c9_empty_rectangle ⟨[0], 1, 1⟩ .on 3 0 3 1 (Or.inl (Nat.le_refl 3))

set_option maxRecDepth 40000 in
/-- C2 (code bug): the claim — and the specification's clipping policy —
say an out-of-bounds rectangle affects only the in-bounds portion and never
fails.  The code clamps the last word column to `min(self.width, x2/128)`
but iterates *inclusively*, so the out-of-range column `width` is visited:
on `Grid::new(1,1)`, `update(On, 0, 0, 129, 1)` indexes `grid[1]` in a
1-word vector and panics.  Clipping is also word-granular rather than
bounded by the logical width: `update(On, 0, 0, 2, 1)` on the same 1×1
grid sets both bit 0 and the out-of-bounds padding bit 1, and `count()`
then reports 2 lit lights on a grid with a single cell. -/
theorem c2_clipping_bug :
    ((Grid.new 1 1).bind fun g => g.update .on 0 0 129 1) = none ∧
    (((Grid.new 1 1).bind fun g => g.update .on 0 0 2 1).map Grid.count) = some 2 := by
  constructor
  · decide
  · decide

end Ex06

namespace Ex06

/-! ## Claim C3: the update bitmask -/

/-- The bits of `2 ^ e - 2 ^ s` are exactly the positions `s ≤ b < e`. -/
theorem testBit_two_pow_sub_two_pow {s e : Nat} (hse : s ≤ e) (b : Nat) :
    (2 ^ e - 2 ^ s).testBit b = decide (s ≤ b ∧ b < e) := by
  have hexp : s + (e - s) = e := by omega
  have hfac : 2 ^ e - 2 ^ s = 2 ^ s * (2 ^ (e - s) - 1) := by
    rw [Nat.mul_sub_left_distrib, Nat.mul_one, ← Nat.pow_add, hexp]
  rw [hfac, Nat.testBit_mul_pow_two, Nat.testBit_two_pow_sub_one]
  by_cases h1 : s ≤ b <;> by_cases h2 : b < e <;> simp [h1, h2] <;> omega

/-- The wrapping subtraction `end_mask.wrapping_sub(start_mask)` when the
end mask is a power of two at least the start mask. -/
theorem mask_mod_of_le {em s : Nat} (hs : 2 ^ s ≤ em) (hem : em < 2 ^ 128) :
    (em + 2 ^ 128 - 2 ^ s) % 2 ^ 128 = em - 2 ^ s := by
  have h1 : em + 2 ^ 128 - 2 ^ s = (em - 2 ^ s) + 2 ^ 128 := by omega
  have h2 : em - 2 ^ s ≤ em := Nat.sub_le em _
  rw [h1, Nat.add_mod_right, Nat.mod_eq_of_lt (by omega)]

/-- `updateMask` with its local definitions substituted. -/
theorem updateMask_eq (x1 x2 w : Nat) :
    updateMask x1 x2 w =
      ((if x2 - w * 128 < 128 then 1 <<< (x2 - w * 128) else 0) + 2 ^ 128 -
        1 <<< (if x1 < w * 128 then 0 else x1 - w * 128)) % 2 ^ 128 := rfl

/-- C3: for every non-empty rectangle `[x1, x2)` and every word column `w`
the update loop can touch (`x1 / 128 ≤ w ≤ x2 / 128`), bit `b < 128` of the
computed mask is set exactly when the logical x-position `w * 128 + b` lies
in `[x1, x2)`: the start bit is 0 when the word starts at or after `x1` and
`x1 mod 128` otherwise, and the wrapping subtraction yields the
all-ones-from-start mask whenever the rectangle extends through or past the
word's last bit. -/
theorem c3_mask_bits (x1 x2 w b : Nat) (hx : x1 < x2) (hw1 : x1 / 128 ≤ w)
    (hw2 : w ≤ x2 / 128) (hb : b < 128) :
    ((updateMask x1 x2 w).testBit b = true ↔ x1 ≤ w * 128 + b ∧ w * 128 + b < x2) := by
  have hx2w : w * 128 ≤ x2 :=
    Nat.le_trans (Nat.mul_le_mul_right 128 hw2) (Nat.div_mul_le_self x2 128)
  rw [updateMask_eq]
  by_cases hs : x1 < w * 128
  · rw [if_pos hs]
    by_cases he : x2 - w * 128 < 128
    · rw [if_pos he, Nat.one_shiftLeft, Nat.one_shiftLeft]
      have h0e : (2 : Nat) ^ 0 ≤ 2 ^ (x2 - w * 128) :=
        Nat.pow_le_pow_right (by omega) (Nat.zero_le _)
      have hlt : (2 : Nat) ^ (x2 - w * 128) < 2 ^ 128 :=
        Nat.pow_lt_pow_right (by omega) he
      rw [mask_mod_of_le h0e hlt, testBit_two_pow_sub_two_pow (Nat.zero_le _) b]
      simp only [decide_eq_true_eq]
      omega
    · rw [if_neg he, Nat.one_shiftLeft]
      have h01 : (0 : Nat) < 2 ^ 0 := Nat.two_pow_pos 0
      have hlt : (2 : Nat) ^ 0 < 2 ^ 128 := Nat.pow_lt_pow_right (by omega) (by omega)
      rw [Nat.zero_add, Nat.mod_eq_of_lt (by omega),
        testBit_two_pow_sub_two_pow (by omega) b]
      simp only [decide_eq_true_eq]
      omega
  · rw [if_neg hs]
    have hwx1 : w * 128 ≤ x1 := by omega
    have hx1lt : x1 < (w + 1) * 128 :=
      (Nat.div_lt_iff_lt_mul (by omega)).mp (Nat.lt_succ_of_le hw1)
    by_cases he : x2 - w * 128 < 128
    · rw [if_pos he, Nat.one_shiftLeft, Nat.one_shiftLeft]
      have hse : (2 : Nat) ^ (x1 - w * 128) ≤ 2 ^ (x2 - w * 128) :=
        Nat.pow_le_pow_right (by omega) (by omega)
      have hlt : (2 : Nat) ^ (x2 - w * 128) < 2 ^ 128 :=
        Nat.pow_lt_pow_right (by omega) he
      rw [mask_mod_of_le hse hlt, testBit_two_pow_sub_two_pow (by omega) b]
      simp only [decide_eq_true_eq]
      omega
    · rw [if_neg he, Nat.one_shiftLeft]
      have hpos : (0 : Nat) < 2 ^ (x1 - w * 128) := Nat.two_pow_pos _
      have hslt : (2 : Nat) ^ (x1 - w * 128) < 2 ^ 128 :=
        Nat.pow_lt_pow_right (by omega) (by omega)
      rw [Nat.zero_add, Nat.mod_eq_of_lt (by omega),
        testBit_two_pow_sub_two_pow (by omega) b]
      simp only [decide_eq_true_eq]
      omega

/-- C3, witness: for the word-crossing rectangle `[120, 140)` and word
column 1, mask bit 5 is set, matching logical position 133. -/
theorem c3_witness : (updateMask 120 140 1).testBit 5 = true :=
  (c3_mask_bits 120 140 1 5 (by decide) (by decide) (by decide) (by decide)).mpr
    (by decide)

end Ex06

namespace Ex06

/-! ## Claim C7: one instruction per line -/

/-- C7, counterexample: on an input with an interior empty line between two
valid instructions, `str::lines` yields the empty line and the parser
panics on it instead of skipping it, so the run does not produce one
instruction per non-empty input line (here: two non-empty lines, but the
sequence fails after the first instruction). -/
theorem c7_counterexample :
    ((linesOf ("turn on 0,0 through 0,0\n\nturn on 0,0 through 0,0".toList)).filter
      (fun l => !l.isEmpty)).length = 2 ∧
    parseLines (linesOf ("turn on 0,0 through 0,0\n\nturn on 0,0 through 0,0".toList)) =
      .error .malformed := by
  constructor
  · decide
  · decide

/-- C7, amended, helper: if every line parses, the parser yields exactly the
per-line parses, one per line, in input order. -/
theorem parseLines_map (ls : List (List Char)) (h : ∀ l ∈ ls, isOkB (parseLine l) = true) :
    parseLines ls = .ok (ls.map fun l => okVal (parseLine l)) := by
  induction ls with
  | nil => rfl
  | cons l ls ih =>
    have hl := h l (List.mem_cons_self l ls)
    have hrest := ih fun x hx => h x (List.mem_cons_of_mem l hx)
    unfold parseLines
    cases hpl : parseLine l with
    | error e => rw [hpl] at hl; exact absurd hl (by simp [isOkB])
    | ok it => rw [hrest, List.map_cons, hpl]; rfl

/-- C7, amended: for every input string all of whose lines (as produced by
`str::lines`, which yields interior empty lines and omits only a final
empty segment) parse successfully, the parser yields exactly one
instruction per line, in input order, each being the parse of its line.
Lines that fail to parse — including interior empty lines — abort the
sequence instead of being skipped. -/
theorem c7_one_per_line (input : List Char)
    (h : ∀ l ∈ linesOf input, isOkB (parseLine l) = true) :
    parseLines (linesOf input) = .ok ((linesOf input).map fun l => okVal (parseLine l)) :=
  parseLines_map (linesOf input) h

/-- C7, witness: a two-line input yields its two instructions in order. -/
theorem c7_witness :
    parseLines (linesOf ("turn on 0,0 through 1,1\ntoggle 2,2 through 3,3".toList)) =
      .ok ((linesOf ("turn on 0,0 through 1,1\ntoggle 2,2 through 3,3".toList)).map
        fun l => okVal (parseLine l)) :=
  c7_one_per_line ("turn on 0,0 through 1,1\ntoggle 2,2 through 3,3".toList) (by decide)

end Ex06

namespace Ex06

/-! ## The write sequence: pointwise characterization -/

/-- `modifyAt` is exactly the bounds-checked functional update. -/
theorem modifyAt_spec (f : Nat → Nat) (l : List Nat) (i : Nat) :
    modifyAt f l i = if h : i < l.length then some (l.set i (f l[i])) else none := by
  induction l generalizing i with
  | nil => simp [modifyAt]
  | cons w l ih =>
    cases i with
    | zero => simp [modifyAt]
    | succ n =>
      simp only [modifyAt, ih]
      by_cases h : n < l.length
      · rw [dif_pos h, dif_pos (by simpa using Nat.succ_lt_succ h)]
        simp [List.set]
      · rw [dif_neg h, dif_neg (fun c => h (by simpa using Nat.lt_of_succ_lt_succ c))]

/-- The write sequence succeeds exactly when every write is in bounds. -/
theorem applyWrites_isSome (op : Op) (ps : List (Nat × Nat)) :
    ∀ l : List Nat, (applyWrites op ps l).isSome = true ↔ ∀ p ∈ ps, p.1 < l.length := by
  induction ps with
  | nil => intro l; simp [applyWrites]
  | cons p ps ih =>
    intro l
    obtain ⟨i, m⟩ := p
    rw [applyWrites, modifyAt_spec]
    by_cases h : i < l.length
    · rw [dif_pos h]
      simp only [ih, List.length_set, List.mem_cons]
      constructor
      · rintro hall p (rfl | hp)
        · exact h
        · exact hall p hp
      · intro hall p hp
        exact hall p (Or.inr hp)
    · rw [dif_neg h]
      simp only [Option.isSome_none, Bool.false_eq_true, false_iff]
      intro hall
      exact h (hall (i, m) (List.mem_cons_self _ _))

/-- The write sequence preserves the storage size. -/
theorem applyWrites_length (op : Op) (ps : List (Nat × Nat)) :
    ∀ l l' : List Nat, applyWrites op ps l = some l' → l'.length = l.length := by
  induction ps with
  | nil =>
    intro l l' h
    cases h
    rfl
  | cons p ps ih =>
    intro l l' h
    obtain ⟨i, m⟩ := p
    rw [applyWrites, modifyAt_spec] at h
    by_cases hi : i < l.length
    · rw [dif_pos hi] at h
      have := ih _ _ h
      simpa using this
    · rw [dif_neg hi] at h
      exact absurd h (by simp)

/-- Pointwise value after a write sequence: each position accumulates, in
order, exactly the masks of the writes aimed at it. -/
theorem applyWrites_getElem (op : Op) (ps : List (Nat × Nat)) :
    ∀ (l l' : List Nat), applyWrites op ps l = some l' →
      ∀ (j : Nat) (hj : j < l.length) (hj2 : j < l'.length),
        l'[j] = List.foldl (fun w p => if p.1 = j then applyOp op p.2 w else w) l[j] ps := by
  induction ps with
  | nil =>
    intro l l' h j hj hj2
    cases h
    simp
  | cons p ps ih =>
    intro l l' h j hj hj2
    obtain ⟨i, m⟩ := p
    rw [applyWrites, modifyAt_spec] at h
    by_cases hi : i < l.length
    · rw [dif_pos hi] at h
      have hstep := ih _ _ h j (by simpa using hj) hj2
      have hjset : j < (l.set i (applyOp op m l[i])).length := by simpa using hj
      have hset : (l.set i (applyOp op m l[i]))[j] =
          if i = j then applyOp op m l[j] else l[j] := by
        rw [List.getElem_set]
        by_cases hij : i = j
        · subst hij
          simp
        · simp [hij]
      rw [hstep, List.foldl_cons, hset]
    · rw [dif_neg hi] at h
      exact absurd h (by simp)

/-- Accumulating toggles from `w` equals `w` XOR the accumulation from 0. -/
theorem foldl_toggle_shift (j : Nat) (ps : List (Nat × Nat)) :
    ∀ w : Nat,
      List.foldl (fun w p => if p.1 = j then applyOp .toggle p.2 w else w) w ps =
        w ^^^ List.foldl (fun w p => if p.1 = j then applyOp .toggle p.2 w else w) 0 ps := by
  induction ps with
  | nil => intro w; simp
  | cons p ps ih =>
    intro w
    rw [List.foldl_cons, List.foldl_cons]
    by_cases hp : p.1 = j
    · rw [if_pos hp, if_pos hp]
      show List.foldl _ (applyOp .toggle p.2 w) ps =
        w ^^^ List.foldl _ (applyOp .toggle p.2 0) ps
      rw [ih (applyOp .toggle p.2 w), ih (applyOp .toggle p.2 0)]
      unfold applyOp
      rw [Nat.zero_xor, Nat.xor_assoc]
    · rw [if_neg hp, if_neg hp]
      exact ih w

/-- Toggling the same write sequence twice restores every position. -/
theorem foldl_toggle_twice (j : Nat) (ps : List (Nat × Nat)) (w : Nat) :
    List.foldl (fun w p => if p.1 = j then applyOp .toggle p.2 w else w)
      (List.foldl (fun w p => if p.1 = j then applyOp .toggle p.2 w else w) w ps) ps = w := by
  rw [foldl_toggle_shift j ps w,
    foldl_toggle_shift j ps
      (w ^^^ List.foldl (fun w p => if p.1 = j then applyOp .toggle p.2 w else w) 0 ps),
    Nat.xor_assoc, Nat.xor_self, Nat.xor_zero]

/-- Applying the same toggle write sequence twice restores the storage. -/
theorem applyWrites_toggle_involution (ps : List (Nat × Nat)) (l l' : List Nat)
    (h : applyWrites .toggle ps l = some l') :
    applyWrites .toggle ps l' = some l := by
  have hlen : l'.length = l.length := applyWrites_length _ _ _ _ h
  have hbound : ∀ p ∈ ps, p.1 < l.length := by
    rw [← applyWrites_isSome .toggle ps l, h]
    rfl
  have hsome2 : (applyWrites .toggle ps l').isSome = true := by
    rw [applyWrites_isSome]
    intro p hp
    rw [hlen]
    exact hbound p hp
  obtain ⟨l2, hl2⟩ := Option.isSome_iff_exists.mp hsome2
  have hlen2 : l2.length = l'.length := applyWrites_length _ _ _ _ hl2
  have : l2 = l := by
    apply List.ext_getElem (by omega)
    intro j hj1 hj2
    rw [applyWrites_getElem _ _ _ _ hl2 j (by omega) hj1,
      applyWrites_getElem _ _ _ _ h j (by omega) (by omega)]
    exact foldl_toggle_twice j ps l[j]
  rw [hl2, this]

/-- The grid-level body: toggling twice restores the storage. -/
theorem updateCore_toggle_involution (x1 y1 x2 y2 width height : Nat) (l l' : List Nat)
    (h : updateCore .toggle x1 y1 x2 y2 width height l = some l') :
    updateCore .toggle x1 y1 x2 y2 width height l' = some l := by
  unfold updateCore at h ⊢
  by_cases hc : colRange x1 x2 width = []
  · rw [if_pos hc] at h ⊢
    cases h
    rfl
  · rw [if_neg hc] at h ⊢
    by_cases hw : width = 0
    · rw [if_pos hw] at h
      exact absurd h (by simp)
    · rw [if_neg hw] at h ⊢
      exact applyWrites_toggle_involution _ _ _ h

/-- C5: applying `Toggle` over the same rectangle twice in succession
restores the grid to exactly its prior state. -/
theorem c5_toggle_twice (g : Grid) (x1 y1 x2 y2 : Nat) (g' : Grid)
    (h : g.update .toggle x1 y1 x2 y2 = some g') :
    g'.update .toggle x1 y1 x2 y2 = some g := by
  unfold Grid.update at h ⊢
  by_cases hempty : x1 ≥ x2 ∨ y1 ≥ y2
  · rw [if_pos hempty] at h ⊢
    cases h
    rfl
  · rw [if_neg hempty] at h ⊢
    obtain ⟨l', hl', rfl⟩ := Option.map_eq_some'.mp h
    have hcore := updateCore_toggle_involution x1 y1 x2 y2 g.width g.height g.grid l' hl'
    show (updateCore .toggle x1 y1 x2 y2 g.width g.height l').map _ = some g
    rw [hcore]
    rfl

/-- C5, witness: toggling `[0,1) × [0,1)` twice on a 1×1 grid restores the
all-off state. -/
theorem c5_witness : Grid.update ⟨[1], 1, 1⟩ .toggle 0 0 1 1 = some ⟨[0], 1, 1⟩ :=
  c5_toggle_twice ⟨[0], 1, 1⟩ 0 0 1 1 ⟨[1], 1, 1⟩ (by decide)

end Ex06

namespace Ex06

/-! ## Locating the writes of one update

The write list is a product of the column range and the row-offset range;
the following lemmas characterize which writes reach a given flat index
`j`, so that the fold over the write list collapses to at most one mask
application per index. -/

/-- Folding over a `flatMap` is the nested fold. -/
theorem foldl_flatMap_eq {α β γ : Type} (f : γ → β → γ) (g : α → List β) (xs : List α) :
    ∀ w : γ, List.foldl f w (xs.flatMap g) = List.foldl (fun w x => List.foldl f w (g x)) w xs := by
  induction xs with
  | nil => intro w; rfl
  | cons x xs ih =>
    intro w
    rw [List.flatMap_cons, List.foldl_append, List.foldl_cons]
    exact ih _

/-- A row fold misses `j` entirely when no visited offset hits it. -/
theorem foldl_rows_miss (op : Op) (j x mask width : Nat) :
    ∀ (cnt s w : Nat), (∀ k, k < cnt → j ≠ s + width * k + x) →
      List.foldl (fun w p => if p.1 = j then applyOp op p.2 w else w) w
        ((List.range' s cnt width).map fun y => (y + x, mask)) = w := by
  intro cnt
  induction cnt with
  | zero => intro s w _; rfl
  | succ n ih =>
    intro s w hmiss
    rw [List.range'_succ, List.map_cons, List.foldl_cons]
    have h0 := hmiss 0 (Nat.succ_pos n)
    rw [Nat.mul_zero] at h0
    rw [if_neg (by omega : ¬(s + x = j))]
    apply ih (s + width) w
    intro k hk hc
    have := hmiss (k + 1) (by omega)
    rw [Nat.mul_succ] at this
    exact this (by omega)

/-- A row fold hits `j` exactly once when some visited offset reaches it,
applying the mask once. -/
theorem foldl_rows_hit (op : Op) (j x mask width : Nat) (hw : 1 ≤ width) :
    ∀ (cnt s w : Nat), (∃ k, k < cnt ∧ j = s + width * k + x) →
      List.foldl (fun w p => if p.1 = j then applyOp op p.2 w else w) w
        ((List.range' s cnt width).map fun y => (y + x, mask)) = applyOp op mask w := by
  intro cnt
  induction cnt with
  | zero =>
    intro s w h
    obtain ⟨k, hk, _⟩ := h
    omega
  | succ n ih =>
    intro s w h
    obtain ⟨k, hk, hj⟩ := h
    rw [List.range'_succ, List.map_cons, List.foldl_cons]
    cases k with
    | zero =>
      rw [Nat.mul_zero] at hj
      rw [if_pos (by omega : s + x = j)]
      apply foldl_rows_miss
      intro k2 hk2 hc
      omega
    | succ k2 =>
      rw [Nat.mul_succ] at hj
      rw [if_neg (by omega : ¬(s + x = j))]
      exact ih (s + width) w ⟨k2, by omega, by omega⟩

end Ex06

namespace Ex06

/-- With `s` a multiple of `width` and `x < width`, a flat index
`s + width * k + x` determines its word column as `j % width`. -/
theorem mod_decomp {width s x k j : Nat} (hs : s % width = 0) (hx : x < width)
    (hj : j = s + width * k + x) : j % width = x := by
  obtain ⟨q, hq⟩ := Nat.dvd_of_mod_eq_zero hs
  have hrw : j = x + width * (q + k) := by
    rw [Nat.mul_add]
    omega
  rw [hrw, Nat.add_mul_mod_self_left, Nat.mod_eq_of_lt hx]

/-- The column fold leaves `w` unchanged when no visited write hits `j`. -/
theorem foldl_cols_miss (op : Op) (j x1 x2 width s cntY : Nat) :
    ∀ (cntX sx : Nat) (w : Nat),
      (∀ x k, sx ≤ x → x < sx + cntX → k < cntY → j ≠ s + width * k + x) →
      List.foldl (fun w x =>
        List.foldl (fun w p => if p.1 = j then applyOp op p.2 w else w) w
          ((List.range' s cntY width).map fun y => (y + x, updateMask x1 x2 x))) w
        (List.range' sx cntX) = w := by
  intro cntX
  induction cntX with
  | zero => intro sx w _; rfl
  | succ n ih =>
    intro sx w hmiss
    rw [List.range'_succ, List.foldl_cons]
    rw [foldl_rows_miss op j sx (updateMask x1 x2 sx) width cntY s w
      (fun k hk => hmiss sx k (Nat.le_refl sx) (by omega) hk)]
    exact ih (sx + 1) w (fun x k hx1 hx2 hk => hmiss x k (by omega) (by omega) hk)

/-- The column fold applies exactly the hitting column's mask when some
visited write hits `j` (all visited columns lying inside a word row). -/
theorem foldl_cols_hit (op : Op) (j x1 x2 width s cntY : Nat) (hw : 1 ≤ width)
    (hs : s % width = 0) (xh : Nat) (hxh : xh < width) :
    ∀ (cntX sx : Nat) (w : Nat), sx ≤ xh → xh < sx + cntX →
      (∀ x, sx ≤ x → x < sx + cntX → x < width) →
      (∃ k, k < cntY ∧ j = s + width * k + xh) →
      List.foldl (fun w x =>
        List.foldl (fun w p => if p.1 = j then applyOp op p.2 w else w) w
          ((List.range' s cntY width).map fun y => (y + x, updateMask x1 x2 x))) w
        (List.range' sx cntX) = applyOp op (updateMask x1 x2 xh) w := by
  intro cntX
  induction cntX with
  | zero =>
    intro sx w h1 h2 _ _
    omega
  | succ n ih =>
    intro sx w hsx1 hsx2 hall hhit
    obtain ⟨k, hk, hj⟩ := hhit
    have hjmod : j % width = xh := mod_decomp hs hxh hj
    rw [List.range'_succ, List.foldl_cons]
    by_cases hx0 : xh = sx
    · subst hx0
      rw [foldl_rows_hit op j xh (updateMask x1 x2 xh) width hw cntY s w ⟨k, hk, hj⟩]
      apply foldl_cols_miss
      intro x k2 hx1 hx2 hk2 hc
      have : j % width = x :=
        mod_decomp hs (hall x (by omega) (by omega)) hc
      omega
    · rw [foldl_rows_miss op j sx (updateMask x1 x2 sx) width cntY s w ?_]
      · exact ih (sx + 1) w (by omega) (by omega)
          (fun x hx1 hx2 => hall x (by omega) (by omega)) ⟨k, hk, hj⟩
      · intro k2 hk2 hc
        have : j % width = sx := mod_decomp hs (hall sx (by omega) (by omega)) hc
        omega

end Ex06

namespace Ex06

/-- Characterization of `updateCore`: when every visited word column lies
inside a row and every write index is in bounds, the update succeeds and
each flat position either receives its column's mask once (if some write
hits it) or is untouched. -/
theorem updateCore_spec (op : Op) (x1 y1 x2 y2 width height : Nat) (l : List Nat)
    (hw : 1 ≤ width)
    (hcols : ∀ x ∈ colRange x1 x2 width, x < width)
    (hbound : ∀ p ∈ writeList x1 y1 x2 y2 width height, p.1 < l.length) :
    ∃ l', updateCore op x1 y1 x2 y2 width height l = some l' ∧ l'.length = l.length ∧
      ∀ (j : Nat) (hj : j < l.length) (hj2 : j < l'.length),
        (hits x1 y1 x2 y2 width height j →
          l'[j] = applyOp op (updateMask x1 x2 (j % width)) l[j]) ∧
        (¬ hits x1 y1 x2 y2 width height j → l'[j] = l[j]) := by
  unfold updateCore
  by_cases hc : colRange x1 x2 width = []
  · rw [if_pos hc]
    refine ⟨l, rfl, rfl, fun j hj hj2 => ⟨fun hhit => ?_, fun _ => rfl⟩⟩
    obtain ⟨x, y, hx, _, _⟩ := hhit
    rw [hc] at hx
    exact absurd hx (List.not_mem_nil x)
  · rw [if_neg hc, if_neg (by omega : ¬ width = 0)]
    have hsome : (applyWrites op (writeList x1 y1 x2 y2 width height) l).isSome = true :=
      (applyWrites_isSome _ _ _).mpr hbound
    obtain ⟨l', hl'⟩ := Option.isSome_iff_exists.mp hsome
    have hlen := applyWrites_length _ _ _ _ hl'
    refine ⟨l', hl', hlen, fun j hj hj2 => ?_⟩
    have hget := applyWrites_getElem _ _ _ _ hl' j hj hj2
    rw [writeList, foldl_flatMap_eq, colRange, rowRange] at hget
    constructor
    · intro hhit
      obtain ⟨x, y, hxmem, hymem, hjyx⟩ := hhit
      have hxlt : x < width := hcols x hxmem
      rw [colRange, List.mem_range'] at hxmem
      obtain ⟨i, hi, hxi⟩ := hxmem
      rw [rowRange, List.mem_range'] at hymem
      obtain ⟨k, hk, hyk⟩ := hymem
      have hmod : j % width = x :=
        mod_decomp (s := max 0 y1 * width) (k := k)
          (Nat.mul_mod_left (max 0 y1) width) hxlt (by omega)
      rw [hget, hmod]
      refine foldl_cols_hit op j x1 x2 width (max 0 y1 * width) _ hw
        (Nat.mul_mod_left _ _) x hxlt _ (max 0 (x1 / 128)) l[j] ?_ ?_ ?_ ⟨k, hk, ?_⟩
      · omega
      · omega
      · intro x' h1 h2
        exact hcols x'
          (by rw [colRange, List.mem_range']; exact ⟨x' - max 0 (x1 / 128), by omega, by omega⟩)
      · omega
    · intro hmiss
      rw [hget]
      apply foldl_cols_miss
      intro x k hx1 hx2 hk hc2
      apply hmiss
      refine ⟨x, max 0 y1 * width + width * k, ?_, ?_, by omega⟩
      · rw [colRange, List.mem_range']
        exact ⟨x - max 0 (x1 / 128), by omega, by omega⟩
      · rw [rowRange, List.mem_range']
        exact ⟨k, hk, rfl⟩

/-- The length of a flattened replicate. -/
theorem length_flatten_replicate {α : Type} (n : Nat) (l : List α) :
    ((List.replicate n l).flatten).length = n * l.length := by
  induction n with
  | zero => simp
  | succ m ih =>
    rw [List.replicate_succ, List.flatten_cons, List.length_append, ih, Nat.succ_mul]
    omega

/-- Characterization of `Grid::update` for a well-formed grid, a non-empty
rectangle, and an update whose last word column `x2 / 128` lies strictly
inside a row (so that the inclusive column loop stays in bounds): the
update succeeds, preserves the dimensions, and each flat position either
receives its column's mask once or is untouched. -/
theorem Grid.update_spec (g : Grid) (op : Op) (x1 y1 x2 y2 : Nat)
    (hw : 1 ≤ g.width) (hcol : x2 / 128 < g.width)
    (hlen : g.grid.length = g.width * g.height)
    (hx : x1 < x2) (hy : y1 < y2) :
    ∃ g', g.update op x1 y1 x2 y2 = some g' ∧ g'.width = g.width ∧ g'.height = g.height ∧
      g'.grid.length = g.grid.length ∧
      ∀ (j : Nat) (hj : j < g.grid.length) (hj2 : j < g'.grid.length),
        (hits x1 y1 x2 y2 g.width g.height j →
          g'.grid[j] = applyOp op (updateMask x1 x2 (j % g.width)) g.grid[j]) ∧
        (¬ hits x1 y1 x2 y2 g.width g.height j → g'.grid[j] = g.grid[j]) := by
  have hcols : ∀ x ∈ colRange x1 x2 g.width, x < g.width := by
    intro x hx'
    rw [colRange, List.mem_range'] at hx'
    obtain ⟨i, hi, hxi⟩ := hx'
    omega
  have hrow : ∀ y ∈ rowRange y1 y2 g.width g.height, ∃ r, r < g.height ∧ y = g.width * r := by
    intro y hy'
    rw [rowRange, List.mem_range'] at hy'
    obtain ⟨k, hk, hyk⟩ := hy'
    have hcnt : (min g.height y2 * g.width - max 0 y1 * g.width + (g.width - 1)) / g.width
        = min g.height y2 - max 0 y1 := by
      rw [← Nat.sub_mul, Nat.mul_comm, Nat.mul_add_div (by omega), Nat.div_eq_of_lt (by omega)]
      omega
    rw [hcnt] at hk
    refine ⟨max 0 y1 + k, by omega, ?_⟩
    rw [hyk, Nat.mul_add, Nat.mul_comm g.width (max 0 y1)]
  have hbound : ∀ p ∈ writeList x1 y1 x2 y2 g.width g.height, p.1 < g.grid.length := by
    intro p hp
    rw [writeList, List.mem_flatMap] at hp
    obtain ⟨x, hxmem, hp2⟩ := hp
    rw [List.mem_map] at hp2
    obtain ⟨y, hymem, rfl⟩ := hp2
    obtain ⟨r, hr, hyr⟩ := hrow y hymem
    have hxlt : x < g.width := hcols x hxmem
    rw [hlen]
    calc y + x < g.width * r + g.width := by omega
      _ = g.width * (r + 1) := by rw [Nat.mul_succ]
      _ ≤ g.width * g.height := Nat.mul_le_mul_left _ (by omega)
  obtain ⟨l', hcore, hlen', hpoint⟩ :=
    updateCore_spec op x1 y1 x2 y2 g.width g.height g.grid hw hcols hbound
  refine ⟨⟨l', g.width, g.height⟩, ?_, rfl, rfl, hlen', fun j hj hj2 => hpoint j hj hj2⟩
  unfold Grid.update
  rw [if_neg (by omega : ¬(x1 ≥ x2 ∨ y1 ≥ y2)), hcore]
  rfl

end Ex06

namespace Ex06

/-! ## Claim C1: the end-to-end driver run

The three instructions of the claim act on the `1000 × 1000` grid
(`width = 8` words of 128 bits per row, 8000 words in all).  The grid
contents after each update are described by explicit structured lists,
identified with the update results via the pointwise characterization. -/

/-- Element lookup in a flattened replicate is lookup in the block at the
index's remainder. -/
theorem getElem?_flatten_replicate {α : Type} (l : List α) :
    ∀ (n j : Nat), j < n * l.length →
      ((List.replicate n l).flatten)[j]? = l[j % l.length]? := by
  intro n
  induction n with
  | zero =>
    intro j hj
    omega
  | succ m ih =>
    intro j hj
    have hflat : (List.replicate (m + 1) l).flatten = l ++ (List.replicate m l).flatten := by
      rw [List.replicate_succ, List.flatten_cons]
    rw [hflat]
    by_cases h : j < l.length
    · rw [List.getElem?_append_left h, Nat.mod_eq_of_lt h]
    · have hlpos : 0 < l.length := by
        rcases Nat.eq_zero_or_pos l.length with h0 | h0
        · rw [h0] at hj
          omega
        · exact h0
      rw [Nat.add_mul] at hj
      rw [List.getElem?_append_right (by omega), ih (j - l.length) (by omega),
        Nat.mod_eq_sub_mod (by omega : j ≥ l.length)]

/-- `gridA` lookup. -/
theorem gridA_getElem? (j : Nat) (hj : j < 8000) : gridA[j]? = rowFull[j % 8]? := by
  have hlen : rowFull.length = 8 := rfl
  have := getElem?_flatten_replicate rowFull 1000 j (by omega)
  rw [hlen] at this
  exact this

/-- `gridA` has 8000 words. -/
theorem gridA_length : gridA.length = 8000 := by
  rw [gridA, length_flatten_replicate]
  rfl

/-- `gridB` lookup. -/
theorem gridB_getElem? (j : Nat) (hj : j < 8000) :
    gridB[j]? = if j < 8 then some 0 else rowFull[j % 8]? := by
  have hlen : rowFull.length = 8 := rfl
  rw [gridB]
  by_cases h : j < 8
  · rw [if_pos h, List.getElem?_append_left (by simpa using h),
      List.getElem?_replicate_of_lt h]
  · rw [if_neg h, List.getElem?_append_right (by simpa using h)]
    have := getElem?_flatten_replicate rowFull 999 (j - (List.replicate 8 (0 : Nat)).length)
      (by simp; omega)
    rw [hlen] at this
    rw [this]
    have h8 : (List.replicate 8 (0 : Nat)).length = 8 := by simp
    rw [h8, Nat.mod_eq_sub_mod (by omega : j ≥ 8)]

/-- `gridB` has 8000 words. -/
theorem gridB_length : gridB.length = 8000 := by
  rw [gridB, List.length_append, length_flatten_replicate]
  rfl

/-- `rowCleared` agrees with `rowFull` except at word 3. -/
theorem rowCleared_getElem? (k : Nat) (hk : k < 8) :
    rowCleared[k]? = if k = 3 then some wCleared else rowFull[k]? := by
  interval_cases k <;> simp [rowCleared, rowFull]

/-- Length of the first flattened block of `gridC`. -/
theorem lenF498 : ((List.replicate 498 rowFull).flatten).length = 3984 := by
  rw [length_flatten_replicate]
  rfl

/-- Length of the 8-word zero block. -/
theorem lenB8 : (List.replicate 8 (0 : Nat)).length = 8 := by simp

/-- Length of `gridC` up to row 499. -/
theorem lenP2 :
    (List.replicate 8 (0 : Nat) ++ (List.replicate 498 rowFull).flatten).length = 3992 := by
  rw [List.length_append, lenB8, lenF498]

/-- Length of `gridC` up to row 500. -/
theorem lenP3 :
    (List.replicate 8 (0 : Nat) ++ (List.replicate 498 rowFull).flatten ++
      rowCleared).length = 4000 := by
  rw [List.length_append, lenP2]
  rfl

/-- Length of `gridC` up to row 501. -/
theorem lenP4 :
    (List.replicate 8 (0 : Nat) ++ (List.replicate 498 rowFull).flatten ++
      rowCleared ++ rowCleared).length = 4008 := by
  rw [List.length_append, lenP3]
  rfl

/-- `gridC` lookup. -/
theorem gridC_getElem? (j : Nat) (hj : j < 8000) :
    gridC[j]? = if j < 8 then some 0
      else if j = 3995 ∨ j = 4003 then some wCleared
      else rowFull[j % 8]? := by
  rw [gridC]
  by_cases hc4 : j < 4008
  · rw [List.getElem?_append_left (by rw [lenP4]; omega)]
    by_cases hc3 : j < 4000
    · rw [List.getElem?_append_left (by rw [lenP3]; omega)]
      by_cases hc2 : j < 3992
      · rw [List.getElem?_append_left (by rw [lenP2]; omega)]
        by_cases hc1 : j < 8
        · rw [if_pos hc1, List.getElem?_append_left (by rw [lenB8]; omega),
            List.getElem?_replicate_of_lt hc1]
        · rw [if_neg hc1, if_neg (show ¬ (j = 3995 ∨ j = 4003) by omega),
            List.getElem?_append_right (by rw [lenB8]; omega), lenB8]
          have hfr := getElem?_flatten_replicate rowFull 498 (j - 8)
            (by rw [show rowFull.length = 8 from rfl]; omega)
          rw [show rowFull.length = 8 from rfl] at hfr
          rw [hfr, Nat.mod_eq_sub_mod (show j ≥ 8 by omega)]
      · rw [if_neg (show ¬ j < 8 by omega),
          List.getElem?_append_right (by rw [lenP2]; omega), lenP2]
        rw [rowCleared_getElem? (j - 3992) (by omega)]
        by_cases hw3 : j = 3995
        · rw [if_pos (show j - 3992 = 3 by omega), if_pos (Or.inl hw3)]
        · rw [if_neg (show ¬ (j - 3992 = 3) by omega),
            if_neg (show ¬ (j = 3995 ∨ j = 4003) by omega),
            show j - 3992 = j % 8 by omega]
    · rw [if_neg (show ¬ j < 8 by omega),
        List.getElem?_append_right (by rw [lenP3]; omega), lenP3]
      rw [rowCleared_getElem? (j - 4000) (by omega)]
      by_cases hw3 : j = 4003
      · rw [if_pos (show j - 4000 = 3 by omega), if_pos (Or.inr hw3)]
      · rw [if_neg (show ¬ (j - 4000 = 3) by omega),
          if_neg (show ¬ (j = 3995 ∨ j = 4003) by omega),
          show j - 4000 = j % 8 by omega]
  · rw [if_neg (show ¬ j < 8 by omega), if_neg (show ¬ (j = 3995 ∨ j = 4003) by omega),
      List.getElem?_append_right (by rw [lenP4]; omega), lenP4]
    have hfr := getElem?_flatten_replicate rowFull 499 (j - 4008)
      (by rw [show rowFull.length = 8 from rfl]; omega)
    rw [show rowFull.length = 8 from rfl] at hfr
    rw [hfr, show (j - 4008) % 8 = j % 8 by omega]

/-- `gridC` has 8000 words. -/
theorem gridC_length : gridC.length = 8000 := by
  rw [gridC, List.length_append, List.length_append, List.length_append, List.length_append,
    length_flatten_replicate, length_flatten_replicate]
  rfl

end Ex06

namespace Ex06

/-- Every word of the grid is hit by `turn on 0,0 through 999,999`
(stored as the half-open rectangle `[0,1000) × [0,1000)`). -/
theorem hits_on_full (j : Nat) (hj : j < 8000) : hits 0 0 1000 1000 8 1000 j := by
  refine ⟨j % 8, j - j % 8, ?_, ?_, by omega⟩
  · rw [colRange, List.mem_range']
    exact ⟨j % 8, by omega, by omega⟩
  · rw [rowRange, List.mem_range']
    exact ⟨j / 8, by omega, by omega⟩

/-- `toggle 0,0 through 999,0` hits exactly the words of row 0. -/
theorem hits_toggle_row0 (j : Nat) (hj : j < 8000) :
    hits 0 0 1000 1 8 1000 j ↔ j < 8 := by
  constructor
  · rintro ⟨x, y, hx, hy, rfl⟩
    rw [colRange, List.mem_range'] at hx
    rw [rowRange, List.mem_range'] at hy
    obtain ⟨i, hi, rfl⟩ := hx
    obtain ⟨k, hk, rfl⟩ := hy
    omega
  · intro h8
    refine ⟨j, 0, ?_, ?_, by omega⟩
    · rw [colRange, List.mem_range']
      exact ⟨j, by omega, by omega⟩
    · rw [rowRange, List.mem_range']
      exact ⟨0, by omega, by omega⟩

/-- `turn off 499,499 through 500,500` hits exactly word 3 of rows 499
and 500: flat indices 3995 and 4003. -/
theorem hits_off_block (j : Nat) (hj : j < 8000) :
    hits 499 499 501 501 8 1000 j ↔ (j = 3995 ∨ j = 4003) := by
  constructor
  · rintro ⟨x, y, hx, hy, rfl⟩
    rw [colRange, List.mem_range'] at hx
    rw [rowRange, List.mem_range'] at hy
    obtain ⟨i, hi, rfl⟩ := hx
    obtain ⟨k, hk, rfl⟩ := hy
    omega
  · intro hc
    rcases hc with rfl | rfl
    · refine ⟨3, 3992, ?_, ?_, by omega⟩
      · rw [colRange, List.mem_range']
        exact ⟨0, by omega, by omega⟩
      · rw [rowRange, List.mem_range']
        exact ⟨0, by omega, by omega⟩
    · refine ⟨3, 4000, ?_, ?_, by omega⟩
      · rw [colRange, List.mem_range']
        exact ⟨0, by omega, by omega⟩
      · rw [rowRange, List.mem_range']
        exact ⟨1, by omega, by omega⟩

end Ex06

namespace Ex06

/-- First instruction: `turn on 0,0 through 999,999` turns the fresh grid
into `gridA`. -/
theorem step_on :
    (Grid.mk (List.replicate 8000 0) 8 1000).update .on 0 0 1000 1000 =
      some ⟨gridA, 8, 1000⟩ := by
  obtain ⟨g', hup, hwidth, hheight, hlen, hpoint⟩ :=
    Grid.update_spec ⟨List.replicate 8000 0, 8, 1000⟩ .on 0 0 1000 1000
      (by decide) (by decide)
      (by show (List.replicate (8000 : Nat) (0 : Nat)).length = 8 * 1000
          rw [List.length_replicate])
      (by decide) (by decide)
  have hg8 : g'.grid.length = 8000 := by
    rw [hlen]
    show (List.replicate (8000 : Nat) (0 : Nat)).length = 8000
    rw [List.length_replicate]
  have hgr : g'.grid = gridA := by
    apply List.ext_getElem?
    intro n
    by_cases hn : n < 8000
    · have h1 := (hpoint n
        (by show n < (List.replicate (8000 : Nat) (0 : Nat)).length
            rw [List.length_replicate]
            exact hn)
        (by omega)).1 (hits_on_full n hn)
      dsimp only at h1
      rw [List.getElem?_eq_getElem (by omega : n < g'.grid.length), h1,
        List.getElem_replicate, gridA_getElem? n hn]
      obtain ⟨r, hr8, hrew⟩ : ∃ r, r < 8 ∧ n % 8 = r := ⟨n % 8, by omega, rfl⟩
      rw [hrew]
      interval_cases r <;> decide
    · rw [List.getElem?_eq_none (by omega), List.getElem?_eq_none (by rw [gridA_length]; omega)]
  rw [hup]
  obtain ⟨gl, gw, gh⟩ := g'
  dsimp only at hwidth hheight hgr
  rw [hwidth, hheight, hgr]

end Ex06

namespace Ex06

/-- Second instruction: `toggle 0,0 through 999,0` toggles row 0 off,
turning `gridA` into `gridB`. -/
theorem step_toggle :
    (Grid.mk gridA 8 1000).update .toggle 0 0 1000 1 = some ⟨gridB, 8, 1000⟩ := by
  obtain ⟨g', hup, hwidth, hheight, hlen, hpoint⟩ :=
    Grid.update_spec ⟨gridA, 8, 1000⟩ .toggle 0 0 1000 1
      (by decide) (by decide)
      (by show gridA.length = 8 * 1000
          rw [gridA_length])
      (by decide) (by decide)
  have hg8 : g'.grid.length = 8000 := by
    rw [hlen]
    show gridA.length = 8000
    rw [gridA_length]
  have hboundA : ∀ n : Nat, n < 8000 → n < gridA.length := by
    intro n hn
    rw [gridA_length]
    exact hn
  have hgr : g'.grid = gridB := by
    apply List.ext_getElem?
    intro n
    by_cases hn : n < 8000
    · by_cases h8 : n < 8
      · have hbA : n < gridA.length := hboundA n hn
        have h1 := (hpoint n hbA (by omega)).1 ((hits_toggle_row0 n hn).mpr h8)
        dsimp only at h1
        rw [List.getElem?_eq_getElem (by omega : n < g'.grid.length), h1, gridB_getElem? n hn,
          if_pos h8]
        have hmap : (some (applyOp .toggle (updateMask 0 1000 (n % 8)) gridA[n]) : Option Nat) =
            Option.map (applyOp .toggle (updateMask 0 1000 (n % 8))) gridA[n]? := by
          rw [List.getElem?_eq_getElem hbA]
          rfl
        rw [hmap, gridA_getElem? n hn]
        interval_cases n <;> decide
      · have hbA : n < gridA.length := hboundA n hn
        have h1 := (hpoint n hbA (by omega)).2
          (fun hc => h8 ((hits_toggle_row0 n hn).mp hc))
        dsimp only at h1
        rw [List.getElem?_eq_getElem (by omega : n < g'.grid.length), h1, gridB_getElem? n hn,
          if_neg h8, ← gridA_getElem? n hn, List.getElem?_eq_getElem hbA]
    · rw [List.getElem?_eq_none (by omega), List.getElem?_eq_none (by rw [gridB_length]; omega)]
  rw [hup]
  obtain ⟨gl, gw, gh⟩ := g'
  dsimp only at hwidth hheight hgr
  rw [hwidth, hheight, hgr]

end Ex06

namespace Ex06

/-- Third instruction: `turn off 499,499 through 500,500` clears cells 499
and 500 of rows 499 and 500, turning `gridB` into `gridC`. -/
theorem step_off :
    (Grid.mk gridB 8 1000).update .off 499 499 501 501 = some ⟨gridC, 8, 1000⟩ := by
  obtain ⟨g', hup, hwidth, hheight, hlen, hpoint⟩ :=
    Grid.update_spec ⟨gridB, 8, 1000⟩ .off 499 499 501 501
      (by decide) (by decide)
      (by show gridB.length = 8 * 1000
          rw [gridB_length])
      (by decide) (by decide)
  have hg8 : g'.grid.length = 8000 := by
    rw [hlen]
    show gridB.length = 8000
    rw [gridB_length]
  have hboundB : ∀ n : Nat, n < 8000 → n < gridB.length := by
    intro n hn
    rw [gridB_length]
    exact hn
  have hgr : g'.grid = gridC := by
    apply List.ext_getElem?
    intro n
    by_cases hn : n < 8000
    · by_cases hblock : n = 3995 ∨ n = 4003
      · have hbB : n < gridB.length := hboundB n hn
        have h1 := (hpoint n hbB (by omega)).1 ((hits_off_block n hn).mpr hblock)
        dsimp only at h1
        rw [List.getElem?_eq_getElem (by omega : n < g'.grid.length), h1, gridC_getElem? n hn,
          if_neg (show ¬ n < 8 by omega), if_pos hblock]
        have hmap : (some (applyOp .off (updateMask 499 501 (n % 8)) gridB[n]) : Option Nat) =
            Option.map (applyOp .off (updateMask 499 501 (n % 8))) gridB[n]? := by
          rw [List.getElem?_eq_getElem hbB]
          rfl
        rw [hmap, gridB_getElem? n hn, if_neg (show ¬ n < 8 by omega)]
        rcases hblock with rfl | rfl <;> decide
      · have hbB : n < gridB.length := hboundB n hn
        have h1 := (hpoint n hbB (by omega)).2
          (fun hc => hblock ((hits_off_block n hn).mp hc))
        dsimp only at h1
        have hBC : gridC[n]? = gridB[n]? := by
          rw [gridB_getElem? n hn, gridC_getElem? n hn]
          by_cases h8 : n < 8
          · rw [if_pos h8, if_pos h8]
          · rw [if_neg h8, if_neg h8, if_neg hblock]
        rw [List.getElem?_eq_getElem (by omega : n < g'.grid.length), h1, hBC,
          List.getElem?_eq_getElem hbB]
    · rw [List.getElem?_eq_none (by omega), List.getElem?_eq_none (by rw [gridC_length]; omega)]
  rw [hup]
  obtain ⟨gl, gw, gh⟩ := g'
  dsimp only at hwidth hheight hgr
  rw [hwidth, hheight, hgr]

end Ex06

namespace Ex06

/-- Population-count sum over a flattened replicate. -/
theorem sum_map_flatten_replicate (n : Nat) (l : List Nat) :
    (((List.replicate n l).flatten).map popCount).sum = n * (l.map popCount).sum := by
  induction n with
  | zero => simp
  | succ m ih =>
    rw [List.replicate_succ, List.flatten_cons, List.map_append, List.sum_append, ih,
      Nat.succ_mul]
    omega

set_option maxRecDepth 10000 in
/-- The final grid has exactly `1000*1000 - 1000 - 4 = 998996` lit cells. -/
theorem count_gridC : Grid.count ⟨gridC, 8, 1000⟩ = 998996 := by
  show (gridC.map popCount).sum = 998996
  rw [gridC, List.map_append, List.sum_append, List.map_append, List.sum_append,
    List.map_append, List.sum_append, List.map_append, List.sum_append,
    sum_map_flatten_replicate 498 rowFull, sum_map_flatten_replicate 499 rowFull,
    show ((List.replicate 8 (0 : Nat)).map popCount).sum = 0 by decide,
    show ((rowFull.map popCount).sum) = 1000 by decide,
    show ((rowCleared.map popCount).sum) = 998 by decide]


end Ex06

namespace Ex06
set_option maxRecDepth 2000 in
/-- C1: the driver on the three-instruction input returns exactly 998996. -/
theorem c1_end_to_end : a inputC1 = some 998996 := by
  have hstep : List.foldlM runInstr (Grid.mk (List.replicate 8000 0) 8 1000)
      [("turn on", 0, 0, 1000, 1000), ("toggle", 0, 0, 1000, 1),
       ("turn off", 499, 499, 501, 501)] = some ⟨gridC, 8, 1000⟩ := by
    rw [List.foldlM_cons,
      show runInstr (Grid.mk (List.replicate 8000 0) 8 1000) ("turn on", 0, 0, 1000, 1000) =
        (Grid.mk (List.replicate 8000 0) 8 1000).update .on 0 0 1000 1000 from rfl,
      step_on, Option.bind_eq_bind', Option.some_bind]
    show List.foldlM runInstr (Grid.mk gridA 8 1000)
      [("toggle", 0, 0, 1000, 1), ("turn off", 499, 499, 501, 501)] = some ⟨gridC, 8, 1000⟩
    rw [List.foldlM_cons,
      show runInstr (Grid.mk gridA 8 1000) ("toggle", 0, 0, 1000, 1) =
        (Grid.mk gridA 8 1000).update .toggle 0 0 1000 1 from rfl,
      step_toggle, Option.bind_eq_bind', Option.some_bind]
    show List.foldlM runInstr (Grid.mk gridB 8 1000)
      [("turn off", 499, 499, 501, 501)] = some ⟨gridC, 8, 1000⟩
    rw [List.foldlM_cons,
      show runInstr (Grid.mk gridB 8 1000) ("turn off", 499, 499, 501, 501) =
        (Grid.mk gridB 8 1000).update .off 499 499 501 501 from rfl,
      step_off, Option.bind_eq_bind', Option.some_bind]
    rfl
  rw [a.eq_def]
  cases hG : Grid.new 1000 1000 with
  | none => exact absurd hG (by decide)
  | some g =>
    have hg : g = Grid.mk (List.replicate 8000 0) 8 1000 :=
      Option.some.inj (hG.symm.trans
        (show Grid.new 1000 1000 = some (Grid.mk (List.replicate 8000 0) 8 1000) from rfl))
    dsimp only
    rw [show parseLines (linesOf inputC1) =
      Except.ok [("turn on", 0, 0, 1000, 1000), ("toggle", 0, 0, 1000, 1),
        ("turn off", 499, 499, 501, 501)] from by decide]
    dsimp only
    rw [hg, hstep]
    dsimp only
    rw [count_gridC]
end Ex06
